import Mathlib

/-!
Verification of `jcvi/assembly/patch.py`: a shallow embedding of the
marker-breakpoint detector (`check_markers`, `mapbreaks`), the gap
refinement selection (`refine`), the interval merge (`merge_ranges`,
`prepare`) and the certificate reuse logic (`certificate`), together with
theorems settling the specification's claims about them.

Python strings are embedded as Lean `String`s; where the code performs
character-level work (prefix tests, splitting, `int()` parsing,
lexicographic comparison) we operate on `String.toList`, which matches
Python's code-point semantics.
-/

/-- Splits a character list at every occurrence of the separator `c`,
mirroring Python's `str.split(sep)` (empty pieces are kept). -/
def splitOnChar (c : Char) : List Char → List (List Char)
  | [] => [[]]
  | x :: xs =>
    let r := splitOnChar c xs
    if x = c then [] :: r
    else
      match r with
      | [] => [[x]]
      | g :: gs => (x :: g) :: gs

/-- Parses a non-empty run of decimal digits, as Python `int` does for the
digit part. -/
def digitsToNat : List Char → Option Nat
  | [] => none
  | l =>
    l.foldl
      (fun acc c =>
        match acc with
        | none => none
        | some n => if '0' ≤ c ∧ c ≤ '9' then some (n * 10 + (c.toNat - '0'.toNat)) else none)
      (some 0)

/-- Python `int(s)` for an optionally negated decimal literal. -/
def pyToInt (l : List Char) : Option Int :=
  match l with
  | '-' :: rest => (digitsToNat rest).map (fun n => -(n : Int))
  | _ => (digitsToNat l).map (fun n => (n : Int))

/-! ## Marker records and `check_markers` -/

/-- The three classification labels `OK, BREAK, END = range(3)`. -/
def OK : Nat := 0

/-- See `OK`. -/
def BREAK : Nat := 1

/-- See `OK`. -/
def END : Nat := 2

/-- One row of the mstmap input: a marker id of the form
`scaffold.position` (already split at the dot) followed by one genotype
call per individual. -/
structure Marker where
  scf : String
  pos : String
  geno : List String
deriving DecidableEq, Inhabited, Repr

/-- Modelled from the spec: `jcvi.algorithms.matrix.hamming_distance` is
not under `src/`; the spec describes the quantity as the number of
genotype positions that disagree, ignoring positions carrying the missing
call `-`. -/
def hamming_distance (a b : List String) : Nat :=
  (a.zip b).countP (fun p => p.1 != p.2 && p.1 != "-" && p.2 != "-")

/-- `check_markers` from `patch.py`: END across scaffolds; otherwise
BREAK with `(scaffold, posA, posB)` when the disagreement count exceeds
`len(ageno) * maxdiff`, else OK. -/
def check_markers (a b : Marker) (maxdiff : ℚ) : Nat × Option (String × String × String) :=
  if a.scf ≠ b.scf then (END, none)
  else if (hamming_distance a.geno b.geno : ℚ) ≤ (a.geno.length : ℚ) * maxdiff then (OK, none)
  else (BREAK, some (a.scf, a.pos, b.pos))

/-! ## `mapbreaks`: singleton removal and breakpoint reporting -/

/-- The loop body test of `mapbreaks`: index `i` is kept when it is
interior (`1 <= i < len(data) - 1`) and not flanked by BREAK on both
sides. -/
def keepMarker (data : List Marker) (d : ℚ) (i : Nat) : Bool :=
  decide (1 ≤ i) && decide (i + 1 < data.length) &&
  !((check_markers (data.getD (i - 1) default) (data.getD i default) d).1 == BREAK &&
    (check_markers (data.getD i default) (data.getD (i + 1) default) d).1 == BREAK)

/-- Indices of the retained (`good`) markers. -/
def goodIndices (data : List Marker) (d : ℚ) : List Nat :=
  (List.range data.length).filter (keepMarker data d)

/-- The retained marker sequence `good` of `mapbreaks`. -/
def goodMarkers (data : List Marker) (d : ℚ) : List Marker :=
  (goodIndices data d).map (fun i => data.getD i default)

/-- Consecutive pairs, as `jcvi.utils.iter.pairwise`. -/
def pairwiseL {α : Type} (l : List α) : List (α × α) := l.zip l.tail

/-- The breakpoint triples printed by `mapbreaks`: consecutive retained
pairs classified BREAK. -/
def mapbreaks (data : List Marker) (d : ℚ) : List (String × String × String) :=
  (pairwiseL (goodMarkers data d)).filterMap (fun p =>
    let r := check_markers p.1 p.2 d
    if r.1 = BREAK then r.2 else none)

/-! ## Theorems for C1, C4, C10 -/

theorem keepMarker_interior {data : List Marker} {d : ℚ} {i : Nat}
    (h : keepMarker data d i = true) : 1 ≤ i ∧ i + 1 < data.length := by
  unfold keepMarker at h
  simp only [Bool.and_eq_true, decide_eq_true_eq] at h
  exact ⟨h.1.1, h.1.2⟩

/-- Claim C1: `check_markers` classifies a pair of marker rows as END
whenever the scaffolds differ, regardless of genotypes; on equal
scaffolds, with a non-empty genotype vector, it returns
`(BREAK, (scaffold, posA, posB))` exactly when the fraction of
disagreeing genotype positions (ignoring missing calls `-`) exceeds
`maxdiff`, and `(OK, none)` otherwise. -/
theorem check_markers_spec (a b : Marker) (maxdiff : ℚ) :
    (a.scf ≠ b.scf → check_markers a b maxdiff = (END, none)) ∧
    (a.scf = b.scf → 0 < a.geno.length →
      (((hamming_distance a.geno b.geno : ℚ) / (a.geno.length : ℚ) > maxdiff →
         check_markers a b maxdiff = (BREAK, some (a.scf, a.pos, b.pos))) ∧
       ((hamming_distance a.geno b.geno : ℚ) / (a.geno.length : ℚ) ≤ maxdiff →
         check_markers a b maxdiff = (OK, none)))) := by
  constructor
  · intro hne
    unfold check_markers
    simp [hne]
  · intro heq hlen
    have hlenQ : (0 : ℚ) < (a.geno.length : ℚ) := by exact_mod_cast hlen
    constructor
    · intro hfrac
      have h2 : (a.geno.length : ℚ) * maxdiff < (hamming_distance a.geno b.geno : ℚ) := by
        calc (a.geno.length : ℚ) * maxdiff
            = maxdiff * (a.geno.length : ℚ) := by ring
          _ < (hamming_distance a.geno b.geno : ℚ) := (lt_div_iff hlenQ).mp hfrac
      unfold check_markers
      simp [heq, not_le.mpr h2]
    · intro hfrac
      have h2 : (hamming_distance a.geno b.geno : ℚ) ≤ (a.geno.length : ℚ) * maxdiff := by
        calc (hamming_distance a.geno b.geno : ℚ)
            ≤ maxdiff * (a.geno.length : ℚ) := (div_le_iff hlenQ).mp hfrac
          _ = (a.geno.length : ℚ) * maxdiff := by ring
      unfold check_markers
      simp [heq, h2]

/-- Witness for C1 at a concrete pair: scaffolds equal, one disagreement
out of three positions (the `-` position is ignored), `maxdiff = 1/4`,
so the pair is classified BREAK. -/
theorem check_markers_spec_witness :
    check_markers ⟨"s", "1", ["A", "B", "-"]⟩ ⟨"s", "2", ["A", "A", "C"]⟩ (1/4)
      = (BREAK, some ("s", "1", "2")) := by
  have h := (check_markers_spec ⟨"s", "1", ["A", "B", "-"]⟩ ⟨"s", "2", ["A", "A", "C"]⟩ (1/4)).2
    rfl (by decide)
  exact h.1 (by
    show ((1 : Nat) : ℚ) / ((3 : Nat) : ℚ) > 1 / 4
    norm_num)

/-- Claim C4: an interior marker whose comparisons with its left and
right neighbors are both BREAK is excluded from the retained sequence,
and every reported breakpoint comes from a consecutive pair of retained
markers that `check_markers` classifies BREAK. -/
theorem mapbreaks_singleton_filter (data : List Marker) (d : ℚ) (i : Nat)
    (_h1 : 1 ≤ i) (_h2 : i + 1 < data.length)
    (hl : (check_markers (data.getD (i - 1) default) (data.getD i default) d).1 = BREAK)
    (hr : (check_markers (data.getD i default) (data.getD (i + 1) default) d).1 = BREAK) :
    i ∉ goodIndices data d ∧
    ∀ rr ∈ mapbreaks data d, ∃ p ∈ pairwiseL (goodMarkers data d),
      check_markers p.1 p.2 d = (BREAK, some rr) := by
  constructor
  · intro hmem
    have hk : keepMarker data d i = true := (List.mem_filter.mp hmem).2
    unfold keepMarker at hk
    simp only [Bool.and_eq_true, Bool.not_eq_true', Bool.and_eq_false_iff,
      beq_eq_false_iff_ne, decide_eq_true_eq] at hk
    rcases hk.2 with hbad | hbad
    · exact hbad hl
    · exact hbad hr
  · intro rr hrr
    rcases List.mem_filterMap.mp hrr with ⟨p, hp, hfp⟩
    refine ⟨p, hp, ?_⟩
    by_cases hb : (check_markers p.1 p.2 d).1 = BREAK
    · simp only [hb, if_pos rfl] at hfp
      exact Prod.ext hb hfp
    · simp only [if_neg hb] at hfp
      exact absurd hfp (by simp)

/-- Witness for C4: three markers on one scaffold, middle one disagreeing
with both neighbors past the threshold; index 1 is dropped and no
breakpoint is reported. -/
theorem mapbreaks_singleton_filter_witness :
    1 ∉ goodIndices
      [⟨"s", "1", ["A", "A"]⟩, ⟨"s", "2", ["B", "B"]⟩, ⟨"s", "3", ["A", "A"]⟩] (1/4) ∧
    ∀ rr ∈ mapbreaks
      [⟨"s", "1", ["A", "A"]⟩, ⟨"s", "2", ["B", "B"]⟩, ⟨"s", "3", ["A", "A"]⟩] (1/4),
      ∃ p ∈ pairwiseL (goodMarkers
        [⟨"s", "1", ["A", "A"]⟩, ⟨"s", "2", ["B", "B"]⟩, ⟨"s", "3", ["A", "A"]⟩] (1/4)),
        check_markers p.1 p.2 (1/4) = (BREAK, some rr) :=
  mapbreaks_singleton_filter
    [⟨"s", "1", ["A", "A"]⟩, ⟨"s", "2", ["B", "B"]⟩, ⟨"s", "3", ["A", "A"]⟩] (1/4) 1
    (by decide) (by decide)
    (by
      have hd : hamming_distance ["A", "A"] ["B", "B"] = 2 := by decide
      show (check_markers ⟨"s", "1", ["A", "A"]⟩ ⟨"s", "2", ["B", "B"]⟩ (1/4)).1 = BREAK
      norm_num [check_markers, hd, BREAK, OK, END])
    (by
      have hd : hamming_distance ["B", "B"] ["A", "A"] = 2 := by decide
      show (check_markers ⟨"s", "2", ["B", "B"]⟩ ⟨"s", "3", ["A", "A"]⟩ (1/4)).1 = BREAK
      norm_num [check_markers, hd, BREAK, OK, END])

/-- Claim C10: only interior rows of the parsed marker data can be
retained by `mapbreaks`; the first and the last row are never in the
retained sequence, whatever their genotypes. -/
theorem mapbreaks_interior_only (data : List Marker) (d : ℚ) :
    ∀ i ∈ goodIndices data d, 1 ≤ i ∧ i + 1 < data.length := by
  intro i hi
  exact keepMarker_interior (List.mem_filter.mp hi).2

/-- Witness for C10 on a concrete three-marker input (three distinct
scaffolds, so both comparisons are END): index 1 is retained and is
interior. -/
theorem mapbreaks_interior_only_witness :
    1 ≤ 1 ∧ 1 + 1 <
      ([⟨"s1", "1", ["A"]⟩, ⟨"s2", "2", ["A"]⟩, ⟨"s3", "3", ["A"]⟩] : List Marker).length :=
  mapbreaks_interior_only [⟨"s1", "1", ["A"]⟩, ⟨"s2", "2", ["A"]⟩, ⟨"s3", "3", ["A"]⟩]
    (1/4) 1 (by decide)

/-! ## BED records, `range_parse`, `merge_ranges` and `prepare` -/

/-- The fields of a BED record that `merge_ranges` and `prepare` read:
the accession string (`accn`) and the strand column. -/
structure BedLine where
  accn : String
  strand : String
deriving DecidableEq, Inhabited, Repr

/-- A parsed accession range. -/
structure RangeInfo where
  seqid : String
  start : Int
  stop : Int
deriving DecidableEq, Inhabited, Repr

/-- Modelled from the spec: `jcvi.utils.range.range_parse` is not under
`src/`; the spec describes it as extracting the sequence id and the
start/end coordinates from an accession of the form `seqid:start-end`. -/
def range_parse (accn : String) : RangeInfo :=
  match splitOnChar ':' accn.toList with
  | [sid, rng] =>
    match splitOnChar '-' rng with
    | [s, e] =>
      match pyToInt s, pyToInt e with
      | some si, some ei => ⟨String.mk sid, si, ei⟩
      | _, _ => ⟨String.mk sid, 0, 0⟩
    | _ => ⟨String.mk sid, 0, 0⟩
  | _ => ⟨accn, 0, 0⟩

/-- The distinct sequence ids of the parsed accession ranges of a group
(`mc = set(x.seqid for x in mr)` in the source). -/
def merge_seqids (beds : List BedLine) : List String :=
  (beds.map (fun x => (range_parse x.accn).seqid)).dedup

/-- `merge_ranges` from `patch.py`: `None` unless exactly one distinct
seqid; otherwise the minimum start, maximum end, and the strand vote
`'-' if neg_strands > pos_strands else '+'` where `pos_strands` counts
every record whose strand is not `'-'`. -/
def merge_ranges (beds : List BedLine) : Option (String × Int × Int × String) :=
  match merge_seqids beds with
  | [c] =>
    let starts := beds.map (fun x => (range_parse x.accn).start)
    let stops := beds.map (fun x => (range_parse x.accn).stop)
    let ms := starts.foldl min (starts.headD 0)
    let me := stops.foldl max (stops.headD 0)
    let neg := beds.countP (fun x => x.strand == "-")
    let pos := beds.length - neg
    some (c, ms, me, if neg > pos then "-" else "+")
  | _ => none

/-- The fixed flank added around each merged interval in `prepare`. -/
def Flank : Int := 10000

/-- One group of `prepare`'s condensing loop: merge, then expand by
`Flank` and clip against the sequence size. `none` models the unpacking
of a `None` return from `merge_ranges`, which in Python raises. -/
def prepare_group (sizes : String → Int) (sb : List BedLine) :
    Option (String × Int × Int × String) :=
  (merge_ranges sb).map (fun r =>
    (r.1, max (r.2.1 - Flank) 0, min (r.2.2.1 + Flank) (sizes r.1), r.2.2.2))

/-- `prepare`'s loop over the groups: the Python code unpacks
`merge_ranges(sb)` without a check, so a `None` return raises a
`TypeError` and aborts the whole run; this is modelled by `Except.error`
cutting off the remaining groups. -/
def prepare_groups (sizes : String → Int) :
    List (List BedLine) → Except String (List (String × Int × Int × String))
  | [] => Except.ok []
  | g :: gs =>
    match prepare_group sizes g with
    | none => Except.error "TypeError: cannot unpack None from merge_ranges"
    | some r =>
      match prepare_groups sizes gs with
      | Except.ok rs => Except.ok (r :: rs)
      | Except.error e => Except.error e

/-! ### Fold lemmas for min/max and dedup -/

theorem foldl_min_le {α : Type} [LinearOrder α] (l : List α) (a : α) :
    ∀ x ∈ a :: l, l.foldl min a ≤ x := by
  induction l generalizing a with
  | nil => intro x hx; simp at hx; simp [hx]
  | cons b bs ih =>
    intro x hx
    simp only [List.mem_cons] at hx
    rcases hx with rfl | rfl | hx
    · exact le_trans (ih (min x b) (min x b) (by simp)) (min_le_left _ _)
    · exact le_trans (ih (min a x) (min a x) (by simp)) (min_le_right _ _)
    · exact ih (min a b) x (List.mem_cons_of_mem _ hx)

theorem foldl_min_mem {α : Type} [LinearOrder α] (l : List α) (a : α) :
    l.foldl min a ∈ a :: l := by
  induction l generalizing a with
  | nil => simp
  | cons b bs ih =>
    have h := ih (min a b)
    simp only [List.foldl_cons]
    rcases List.mem_cons.mp h with h' | h'
    · rcases min_choice a b with hm | hm
      · exact List.mem_cons.mpr (Or.inl (h'.trans hm))
      · exact List.mem_cons.mpr (Or.inr (List.mem_cons.mpr (Or.inl (h'.trans hm))))
    · exact List.mem_cons.mpr (Or.inr (List.mem_cons.mpr (Or.inr h')))

theorem foldl_max_ge {α : Type} [LinearOrder α] (l : List α) (a : α) :
    ∀ x ∈ a :: l, x ≤ l.foldl max a := by
  induction l generalizing a with
  | nil => intro x hx; simp at hx; simp [hx]
  | cons b bs ih =>
    intro x hx
    simp only [List.mem_cons] at hx
    rcases hx with rfl | rfl | hx
    · exact le_trans (le_max_left _ _) (ih (max x b) (max x b) (by simp))
    · exact le_trans (le_max_right _ _) (ih (max a x) (max a x) (by simp))
    · exact ih (max a b) x (List.mem_cons_of_mem _ hx)

theorem foldl_max_mem {α : Type} [LinearOrder α] (l : List α) (a : α) :
    l.foldl max a ∈ a :: l := by
  induction l generalizing a with
  | nil => simp
  | cons b bs ih =>
    have h := ih (max a b)
    simp only [List.foldl_cons]
    rcases List.mem_cons.mp h with h' | h'
    · rcases max_choice a b with hm | hm
      · exact List.mem_cons.mpr (Or.inl (h'.trans hm))
      · exact List.mem_cons.mpr (Or.inr (List.mem_cons.mpr (Or.inl (h'.trans hm))))
    · exact List.mem_cons.mpr (Or.inr (List.mem_cons.mpr (Or.inr h')))

theorem dedup_eq_singleton_of_all_eq {α : Type} [DecidableEq α] {l : List α} {c : α}
    (hne : l ≠ []) (hall : ∀ x ∈ l, x = c) : l.dedup = [c] := by
  have hmemc : c ∈ l.dedup := by
    rcases List.exists_mem_of_ne_nil l hne with ⟨x, hx⟩
    exact List.mem_dedup.mpr (hall x hx ▸ hx)
  have hnodup := List.nodup_dedup l
  cases hd : l.dedup with
  | nil => rw [hd] at hmemc; simp at hmemc
  | cons y ys =>
    have hy : y = c := hall y (List.mem_dedup.mp (hd ▸ List.mem_cons_self y ys))
    cases hys : ys with
    | nil => rw [hy]
    | cons z zs =>
      have hz : z = c := by
        apply hall z
        apply List.mem_dedup.mp
        rw [hd, hys]
        exact List.mem_cons.mpr (Or.inr (List.mem_cons_self z zs))
      rw [hd, hys] at hnodup
      rw [hy, hz] at hnodup
      simp at hnodup

/-! ## Theorems for C2, C9, C5, C6 -/

/-- Claim C2 (amended): over a group that shares one seqid,
`merge_ranges` returns the minimum start, the maximum end, and the
strand of the majority vote, where an exact tie between the `-` count
and the rest resolves to `+` (not `-` as the specification states). -/
theorem merge_ranges_amended (b : BedLine) (bs : List BedLine) (c : String)
    (hall : ∀ x ∈ b :: bs, (range_parse x.accn).seqid = c) :
    ∃ ms me, merge_ranges (b :: bs) =
        some (c, ms, me,
          if (b :: bs).countP (fun x => x.strand == "-") >
             (b :: bs).length - (b :: bs).countP (fun x => x.strand == "-")
          then "-" else "+") ∧
      (∀ x ∈ b :: bs, ms ≤ (range_parse x.accn).start ∧ (range_parse x.accn).stop ≤ me) ∧
      (∃ x ∈ b :: bs, (range_parse x.accn).start = ms) ∧
      (∃ x ∈ b :: bs, (range_parse x.accn).stop = me) := by
  have hsq : merge_seqids (b :: bs) = [c] := by
    apply dedup_eq_singleton_of_all_eq (by simp)
    intro x hx
    rcases List.mem_map.mp hx with ⟨y, hy, rfl⟩
    exact hall y hy
  refine ⟨((b :: bs).map (fun x => (range_parse x.accn).start)).foldl min
      (((b :: bs).map (fun x => (range_parse x.accn).start)).headD 0),
    ((b :: bs).map (fun x => (range_parse x.accn).stop)).foldl max
      (((b :: bs).map (fun x => (range_parse x.accn).stop)).headD 0),
    ?_, ?_, ?_, ?_⟩
  · unfold merge_ranges
    rw [hsq]
  · intro x hx
    constructor
    · exact foldl_min_le _ _ _
        (List.mem_cons_of_mem _ (List.mem_map_of_mem _ hx))
    · exact foldl_max_ge _ _ _
        (List.mem_cons_of_mem _ (List.mem_map_of_mem _ hx))
  · have hm := foldl_min_mem ((b :: bs).map (fun x => (range_parse x.accn).start))
      (((b :: bs).map (fun x => (range_parse x.accn).start)).headD 0)
    rcases List.mem_cons.mp hm with h' | h'
    · refine ⟨b, List.mem_cons_self b bs, ?_⟩
      rw [h']
      simp
    · rcases List.mem_map.mp h' with ⟨y, hy, hyv⟩
      exact ⟨y, hy, hyv⟩
  · have hm := foldl_max_mem ((b :: bs).map (fun x => (range_parse x.accn).stop))
      (((b :: bs).map (fun x => (range_parse x.accn).stop)).headD 0)
    rcases List.mem_cons.mp hm with h' | h'
    · refine ⟨b, List.mem_cons_self b bs, ?_⟩
      rw [h']
      simp
    · rcases List.mem_map.mp h' with ⟨y, hy, hyv⟩
      exact ⟨y, hy, hyv⟩

/-- Witness for C2 (amended) at a concrete three-record group. -/
theorem merge_ranges_amended_witness :
    ∃ ms me, merge_ranges [⟨"c:10-20", "-"⟩, ⟨"c:5-30", "+"⟩, ⟨"c:7-40", "-"⟩] =
        some ("c", ms, me,
          if ([⟨"c:10-20", "-"⟩, ⟨"c:5-30", "+"⟩, ⟨"c:7-40", "-"⟩] : List BedLine).countP
                (fun x => x.strand == "-") >
             ([⟨"c:10-20", "-"⟩, ⟨"c:5-30", "+"⟩, ⟨"c:7-40", "-"⟩] : List BedLine).length -
               ([⟨"c:10-20", "-"⟩, ⟨"c:5-30", "+"⟩, ⟨"c:7-40", "-"⟩] : List BedLine).countP
                 (fun x => x.strand == "-")
          then "-" else "+") ∧
      (∀ x ∈ ([⟨"c:10-20", "-"⟩, ⟨"c:5-30", "+"⟩, ⟨"c:7-40", "-"⟩] : List BedLine),
        ms ≤ (range_parse x.accn).start ∧ (range_parse x.accn).stop ≤ me) ∧
      (∃ x ∈ ([⟨"c:10-20", "-"⟩, ⟨"c:5-30", "+"⟩, ⟨"c:7-40", "-"⟩] : List BedLine),
        (range_parse x.accn).start = ms) ∧
      (∃ x ∈ ([⟨"c:10-20", "-"⟩, ⟨"c:5-30", "+"⟩, ⟨"c:7-40", "-"⟩] : List BedLine),
        (range_parse x.accn).stop = me) :=
  merge_ranges_amended ⟨"c:10-20", "-"⟩ [⟨"c:5-30", "+"⟩, ⟨"c:7-40", "-"⟩] "c" (by decide)

/-- Counterexample for C2 as stated: on an exact strand tie (one `-`,
one `+`) the code returns `+`, not the negative strand `-`. -/
theorem merge_ranges_tie_counterexample :
    merge_ranges [⟨"c:10-20", "-"⟩, ⟨"c:5-30", "+"⟩] = some ("c", 5, 30, "+") ∧
    ([⟨"c:10-20", "-"⟩, ⟨"c:5-30", "+"⟩] : List BedLine).countP (fun x => x.strand == "-") =
      ([⟨"c:10-20", "-"⟩, ⟨"c:5-30", "+"⟩] : List BedLine).countP (fun x => x.strand == "+") ∧
    ("+" : String) ≠ "-" := by
  refine ⟨by decide, by decide, by decide⟩

/-- Claim C9 (amended): a single-record group yields that record's
parsed accession bounds; the strand is the record's own strand when that
strand is `-` or `+`, while any other strand value is reported as `+`. -/
theorem merge_ranges_single (b : BedLine) :
    merge_ranges [b] = some ((range_parse b.accn).seqid, (range_parse b.accn).start,
      (range_parse b.accn).stop, if b.strand = "-" then "-" else "+") ∧
    ((b.strand = "-" ∨ b.strand = "+") → (if b.strand = "-" then "-" else "+") = b.strand) := by
  constructor
  · have hsq : merge_seqids [b] = [(range_parse b.accn).seqid] := by
      simp [merge_seqids]
    unfold merge_ranges
    rw [hsq]
    by_cases hs : b.strand = "-"
    · simp [hs]
    · simp [hs]
  · intro hcase
    rcases hcase with hs | hs
    · simp [hs]
    · simp [hs]

/-- Witness for C9 (amended) at a concrete negative-strand record. -/
theorem merge_ranges_single_witness :
    merge_ranges [⟨"c:1-5", "-"⟩] = some ((range_parse "c:1-5").seqid,
      (range_parse "c:1-5").start, (range_parse "c:1-5").stop,
      if ("-" : String) = "-" then "-" else "+") ∧
    ((("-" : String) = "-" ∨ ("-" : String) = "+") →
      (if ("-" : String) = "-" then "-" else "+") = ("-" : String)) :=
  merge_ranges_single ⟨"c:1-5", "-"⟩

/-- Counterexample for C9 as stated: a single record whose strand is `.`
does not get its own strand back; the code reports `+`. -/
theorem merge_ranges_single_counterexample :
    merge_ranges [⟨"c:10-20", "."⟩] = some ("c", 10, 20, "+") ∧
    (BedLine.mk "c:10-20" ".").strand ≠ "+" := by
  refine ⟨by decide, by decide⟩

theorem prepare_groups_cons (sizes : String → Int) (g : List BedLine)
    (gs : List (List BedLine)) :
    prepare_groups sizes (g :: gs) =
      match prepare_group sizes g with
      | none => Except.error "TypeError: cannot unpack None from merge_ranges"
      | some r =>
        match prepare_groups sizes gs with
        | Except.ok rs => Except.ok (r :: rs)
        | Except.error e => Except.error e := rfl

/-- Claim C5 (amended): a group whose parsed accessions carry two
distinct seqids makes `merge_ranges` return no result, and `prepare`
then aborts with an error at that group (the Python code unpacks the
`None`, raising `TypeError`) instead of skipping it and continuing. -/
theorem merge_ranges_multi_seqid_aborts (sb : List BedLine) (x y : BedLine)
    (hx : x ∈ sb) (hy : y ∈ sb)
    (hne : (range_parse x.accn).seqid ≠ (range_parse y.accn).seqid) :
    merge_ranges sb = none ∧
    ∀ (sizes : String → Int) (pre post : List (List BedLine)),
      ∃ e, prepare_groups sizes (pre ++ sb :: post) = Except.error e := by
  have h1 : merge_ranges sb = none := by
    cases h : merge_seqids sb with
    | nil => unfold merge_ranges; rw [h]
    | cons c cs =>
      cases cs with
      | nil =>
        exfalso
        have hx' : (range_parse x.accn).seqid ∈ merge_seqids sb :=
          List.mem_dedup.mpr (List.mem_map_of_mem _ hx)
        have hy' : (range_parse y.accn).seqid ∈ merge_seqids sb :=
          List.mem_dedup.mpr (List.mem_map_of_mem _ hy)
        rw [h] at hx' hy'
        simp only [List.mem_singleton] at hx' hy'
        exact hne (hx'.trans hy'.symm)
      | cons c' cs' => unfold merge_ranges; rw [h]
  refine ⟨h1, ?_⟩
  intro sizes pre post
  induction pre with
  | nil =>
    refine ⟨"TypeError: cannot unpack None from merge_ranges", ?_⟩
    have hpg : prepare_group sizes sb = none := by
      simp [prepare_group, h1]
    simp [prepare_groups, hpg]
  | cons g gs ih =>
    rcases ih with ⟨e, he⟩
    cases hg : prepare_group sizes g with
    | none => exact ⟨"TypeError: cannot unpack None from merge_ranges",
        by simp [prepare_groups, hg]⟩
    | some r =>
      refine ⟨e, ?_⟩
      rw [List.cons_append, prepare_groups_cons, hg, he]

/-- Witness for C5 (amended): a concrete mixed-seqid group. -/
theorem merge_ranges_multi_seqid_aborts_witness :
    merge_ranges [⟨"c1:1-2", "+"⟩, ⟨"c2:3-4", "+"⟩] = none ∧
    ∀ (sizes : String → Int) (pre post : List (List BedLine)),
      ∃ e, prepare_groups sizes (pre ++ [⟨"c1:1-2", "+"⟩, ⟨"c2:3-4", "+"⟩] :: post) =
        Except.error e :=
  merge_ranges_multi_seqid_aborts [⟨"c1:1-2", "+"⟩, ⟨"c2:3-4", "+"⟩]
    ⟨"c1:1-2", "+"⟩ ⟨"c2:3-4", "+"⟩ (by decide) (by decide) (by decide)

/-- Counterexample for C5 as stated: with a mixed-seqid group followed by
a perfectly mergeable group, `prepare` stops with an error; the second
group is never processed, so the operation does not "skip that group and
continue with the remaining groups". -/
theorem prepare_no_skip_counterexample :
    merge_ranges [⟨"c1:1-2", "+"⟩, ⟨"c2:3-4", "+"⟩] = none ∧
    prepare_groups (fun _ => 1000)
        [[⟨"c1:1-2", "+"⟩, ⟨"c2:3-4", "+"⟩], [⟨"c:10-20", "+"⟩]] =
      Except.error "TypeError: cannot unpack None from merge_ranges" ∧
    merge_ranges [⟨"c:10-20", "+"⟩] ≠ none := by
  refine ⟨by decide, rfl, by decide⟩

/-- Claim C6: after flank expansion and clipping in `prepare`, the start
is never below 0 and the end never exceeds the sequence length. -/
theorem prepare_clip_bounds (sizes : String → Int) (sb : List BedLine)
    (c : String) (s e : Int) (st : String)
    (h : prepare_group sizes sb = some (c, s, e, st)) :
    0 ≤ s ∧ e ≤ sizes c := by
  unfold prepare_group at h
  cases hm : merge_ranges sb with
  | none => rw [hm] at h; simp at h
  | some r =>
    rw [hm] at h
    simp only [Option.map_some', Option.some.injEq, Prod.mk.injEq] at h
    obtain ⟨hc, hs, he, _⟩ := h
    constructor
    · rw [← hs]; exact le_max_right _ _
    · rw [← he, hc]; exact min_le_right _ _

/-- Witness for C6 at a concrete group: a 50-base sequence clips the
10,000-base flank on both sides. -/
theorem prepare_clip_bounds_witness :
    (0 : Int) ≤ 0 ∧ (50 : Int) ≤ (fun _ => (50 : Int)) "c" :=
  prepare_clip_bounds (fun _ => (50 : Int)) [⟨"c:10-20", "+"⟩] "c" 0 50 "+" (by decide)

/-! ## `refine`: largest-gap selection (Python `max` over `(int(size), row)`) -/

/-- Python string comparison (lexicographic by code point). -/
def pyStrLt (a b : String) : Bool := decide (a.toList < b.toList)

/-- Python list comparison for lists of strings: lexicographic, shorter
prefix first. -/
def pyListLt : List String → List String → Bool
  | _, [] => false
  | [], _ :: _ => true
  | a :: as, b :: bs => if a = b then pyListLt as bs else pyStrLt a b

/-- `int(x[-1])`: the numeric value of a row's last column. -/
def rowSize (x : List String) : Int := (pyToInt (x.getLastD "").toList).getD 0

/-- Python's `<` on the tuples `(int(x[-1]), x)` built in `refine`:
compare the size first, and on ties fall through to list comparison. -/
def rowLtB (a b : List String) : Bool :=
  if rowSize a = rowSize b then pyListLt a b else decide (rowSize a < rowSize b)

/-- Python `max` over the tuples: scan keeping the current element
unless a strictly greater one appears. -/
def pymaxRow (g : List String) (gs : List (List String)) : List String :=
  gs.foldl (fun acc x => if rowLtB acc x then x else acc) g

/-- One group of `refine`'s loop: a lone unmatched row (`gaps[0][3] ==
"."`) goes to the no-gaps file (`none` here); otherwise the `max` row is
selected and printed from column 3 on. -/
def refineGroup (gaps : List (List String)) : Option (List String) :=
  match gaps with
  | [] => none
  | g :: gs =>
    if gs = [] ∧ g.getD 3 "" = "." then none
    else some ((pymaxRow g gs).drop 3)

/-- Consecutive grouping with key equality, as `itertools.groupby`. -/
def pyGroupBy {α κ : Type} [DecidableEq κ] (key : α → κ) (l : List α) : List (List α) :=
  l.foldr
    (fun x acc =>
      match acc with
      | [] => [[x]]
      | g :: gs =>
        match g with
        | [] => [x] :: gs
        | y :: _ => if key x = key y then (x :: g) :: gs else [x] :: g :: gs)
    []

/-- The per-breakpoint-region selection of `refine` over the whole
intersectBed output, grouped by the first three columns. -/
def refine_largest (data : List (List String)) : List (List String) :=
  (pyGroupBy (fun x => x.take 3) data).filterMap refineGroup

theorem pyListLt_irrefl (l : List String) : pyListLt l l = false := by
  induction l with
  | nil => rfl
  | cons a as ih => simp [pyListLt, ih]

theorem pyStrLt_trans {a b c : String} (h1 : pyStrLt a b = true)
    (h2 : pyStrLt b c = true) : pyStrLt a c = true := by
  simp only [pyStrLt, decide_eq_true_eq] at h1 h2 ⊢
  exact lt_trans h1 h2

theorem pyStrLt_irrefl (a : String) : pyStrLt a a = false := by
  simp [pyStrLt]

theorem pyListLt_trans : ∀ {a b c : List String}, pyListLt a b = true →
    pyListLt b c = true → pyListLt a c = true
  | _, [], _, h1, _ => by simp [pyListLt] at h1
  | _, _ :: _, [], _, h2 => by simp [pyListLt] at h2
  | [], b0 :: bs, c0 :: cs, _, _ => rfl
  | a0 :: as, b0 :: bs, c0 :: cs, h1, h2 => by
    simp only [pyListLt] at h1 h2 ⊢
    by_cases hab : a0 = b0
    · subst hab
      rw [if_pos rfl] at h1
      by_cases hac : a0 = c0
      · subst hac
        rw [if_pos rfl] at h2
        rw [if_pos rfl]
        exact pyListLt_trans h1 h2
      · rw [if_neg hac] at h2
        rw [if_neg hac]
        exact h2
    · rw [if_neg hab] at h1
      by_cases hbc : b0 = c0
      · subst hbc
        rw [if_neg hab]
        exact h1
      · rw [if_neg hbc] at h2
        have htr := pyStrLt_trans h1 h2
        by_cases hac : a0 = c0
        · subst hac
          rw [pyStrLt_irrefl] at htr
          exact absurd htr (by simp)
        · rw [if_neg hac]
          exact htr

theorem rowLtB_irrefl (a : List String) : rowLtB a a = false := by
  simp [rowLtB, pyListLt_irrefl]

theorem rowLtB_trans {a b c : List String} (h1 : rowLtB a b = true)
    (h2 : rowLtB b c = true) : rowLtB a c = true := by
  simp only [rowLtB] at h1 h2 ⊢
  by_cases hab : rowSize a = rowSize b
  · rw [if_pos hab] at h1
    by_cases hbc : rowSize b = rowSize c
    · rw [if_pos hbc] at h2
      rw [if_pos (hab.trans hbc)]
      exact pyListLt_trans h1 h2
    · rw [if_neg hbc] at h2
      rw [if_neg (hab ▸ hbc)]
      rw [hab]
      exact h2
  · rw [if_neg hab] at h1
    simp only [decide_eq_true_eq] at h1
    by_cases hbc : rowSize b = rowSize c
    · rw [if_neg (by rw [← hbc]; exact hab)]
      simp only [decide_eq_true_eq]
      rw [← hbc]
      exact h1
    · rw [if_neg hbc] at h2
      simp only [decide_eq_true_eq] at h2
      have := lt_trans h1 h2
      rw [if_neg (ne_of_lt this)]
      simp [this]

theorem pymax_strong : ∀ (gs : List (List String)) (g : List String),
    (pymaxRow g gs ∈ g :: gs) ∧
    (∀ y, rowLtB g y = false → rowLtB (pymaxRow g gs) y = false) ∧
    (∀ y ∈ gs, rowLtB (pymaxRow g gs) y = false)
  | [], g => by
    refine ⟨by simp [pymaxRow], fun y hy => ?_, by simp⟩
    simpa [pymaxRow] using hy
  | x :: xs, g => by
    by_cases hgx : rowLtB g x = true
    · have hstep : pymaxRow g (x :: xs) = pymaxRow x xs := by
        simp [pymaxRow, hgx]
      have ih := pymax_strong xs x
      refine ⟨?_, ?_, ?_⟩
      · rw [hstep]
        rcases List.mem_cons.mp ih.1 with h' | h'
        · rw [h']
          simp
        · exact List.mem_cons.mpr (Or.inr (List.mem_cons.mpr (Or.inr h')))
      · intro y hy
        rw [hstep]
        apply ih.2.1
        by_cases hxy : rowLtB x y = true
        · exact absurd (rowLtB_trans hgx hxy) (by simp [hy])
        · simpa using hxy
      · intro y hy
        rw [hstep]
        rcases List.mem_cons.mp hy with rfl | hy'
        · exact ih.2.1 y (rowLtB_irrefl y)
        · exact ih.2.2 y hy'
    · have hgx' : rowLtB g x = false := by simpa using hgx
      have hstep : pymaxRow g (x :: xs) = pymaxRow g xs := by
        simp [pymaxRow, hgx']
      have ih := pymax_strong xs g
      refine ⟨?_, ?_, ?_⟩
      · rw [hstep]
        rcases List.mem_cons.mp ih.1 with h' | h'
        · rw [h']
          simp
        · exact List.mem_cons.mpr (Or.inr (List.mem_cons.mpr (Or.inr h')))
      · intro y hy
        rw [hstep]
        exact ih.2.1 y hy
      · intro y hy
        rw [hstep]
        rcases List.mem_cons.mp hy with rfl | hy'
        · exact ih.2.1 y hgx'
        · exact ih.2.2 y hy'

theorem pymax_spec (g : List String) (gs : List (List String)) :
    pymaxRow g gs ∈ g :: gs ∧ ∀ x ∈ g :: gs, rowLtB (pymaxRow g gs) x = false := by
  have h := pymax_strong gs g
  refine ⟨h.1, ?_⟩
  intro x hx
  rcases List.mem_cons.mp hx with rfl | hx'
  · exact h.2.1 x (rowLtB_irrefl x)
  · exact h.2.2 x hx'

/-! ## Theorems for C3 -/

/-- Claim C3 (amended): for a breakpoint region overlapped by at least
one gap, `refine` selects and writes a gap row of maximal numeric size
(the last column); on exact size ties the selected row is maximal under
Python's lexicographic comparison of the full rows, not necessarily the
last one in input order. -/
theorem refine_selects_largest (g : List String) (gs : List (List String))
    (h : ¬(gs = [] ∧ g.getD 3 "" = ".")) :
    ∃ m ∈ g :: gs, refineGroup (g :: gs) = some (m.drop 3) ∧
      (∀ x ∈ g :: gs, rowSize x ≤ rowSize m) ∧
      (∀ x ∈ g :: gs, rowSize x = rowSize m → pyListLt m x = false) := by
  obtain ⟨hmem, hmax⟩ := pymax_spec g gs
  refine ⟨pymaxRow g gs, hmem, ?_, ?_, ?_⟩
  · show (if gs = [] ∧ g.getD 3 "" = "." then none
      else some ((pymaxRow g gs).drop 3)) = some ((pymaxRow g gs).drop 3)
    rw [if_neg h]
  · intro x hx
    have hlt := hmax x hx
    unfold rowLtB at hlt
    by_cases hsz : rowSize (pymaxRow g gs) = rowSize x
    · exact le_of_eq hsz.symm
    · rw [if_neg hsz] at hlt
      simp only [decide_eq_false_iff_not, not_lt] at hlt
      exact hlt
  · intro x hx hsz
    have hlt := hmax x hx
    unfold rowLtB at hlt
    rw [if_pos hsz.symm] at hlt
    exact hlt

/-- Witness for C3 (amended) at a concrete two-gap group. -/
theorem refine_selects_largest_witness :
    ∃ m ∈ ([["c", "1", "500", "c", "90", "140", "g1", "50"],
            ["c", "1", "500", "c", "100", "150", "g2", "70"]] : List (List String)),
      refineGroup [["c", "1", "500", "c", "90", "140", "g1", "50"],
                   ["c", "1", "500", "c", "100", "150", "g2", "70"]] = some (m.drop 3) ∧
      (∀ x ∈ ([["c", "1", "500", "c", "90", "140", "g1", "50"],
               ["c", "1", "500", "c", "100", "150", "g2", "70"]] : List (List String)),
        rowSize x ≤ rowSize m) ∧
      (∀ x ∈ ([["c", "1", "500", "c", "90", "140", "g1", "50"],
               ["c", "1", "500", "c", "100", "150", "g2", "70"]] : List (List String)),
        rowSize x = rowSize m → pyListLt m x = false) :=
  refine_selects_largest ["c", "1", "500", "c", "90", "140", "g1", "50"]
    [["c", "1", "500", "c", "100", "150", "g2", "70"]] (by decide)

/-- Counterexample for C3 as stated: two overlapping gaps with the same
size value 50; the selected row is the FIRST in input order (its row
compares lexicographically greater, "90" > "100" as strings), not the
last. -/
theorem refine_tie_counterexample :
    rowSize ["c", "1", "500", "c", "90", "140", "g1", "50"] =
      rowSize ["c", "1", "500", "c", "100", "150", "g2", "50"] ∧
    refineGroup [["c", "1", "500", "c", "90", "140", "g1", "50"],
                 ["c", "1", "500", "c", "100", "150", "g2", "50"]] =
      some (["c", "1", "500", "c", "90", "140", "g1", "50"].drop 3) ∧
    (["c", "1", "500", "c", "90", "140", "g1", "50"].drop 3 : List String) ≠
      ["c", "1", "500", "c", "100", "150", "g2", "50"].drop 3 := by
  refine ⟨by decide, by decide, by decide⟩

/-! ## `prepare`'s grouping key (C8) -/

/-- `is_bb = lambda x: x.accn.startswith(bb)`: the record's
side-preference, i.e. whether its accession belongs to the backbone
assembly. -/
def is_bb (bb : String) (x : BedLine) : Bool := bb.toList.isPrefixOf x.accn.toList

/-- The grouping key the code actually computes:
`key = lambda x: (is_bb, range_parse(x.accn).seqid)`. The first
component is the function OBJECT `is_bb`, not `is_bb(x)`; being the same
object for every record it is modelled as the constant `()`. -/
def prepareKeyCode (x : BedLine) : Unit × String := ((), (range_parse x.accn).seqid)

/-- The grouping key the specification describes: the record's
side-preference applied to the record, together with its seqid. -/
def prepareKeySpec (bb : String) (x : BedLine) : Bool × String :=
  (is_bb bb x, (range_parse x.accn).seqid)

/-- Claim C8 (code bug): two consecutive records with the same parsed
seqid but opposite side-preference (backbone prefix "S:") are placed in
ONE merge group by the code's key, because the unapplied `is_bb` is a
constant; the specified key would separate them. -/
theorem prepare_groupby_key_bug :
    pyGroupBy prepareKeyCode [⟨"S", "+"⟩, ⟨"S:1-2", "+"⟩] =
      [[⟨"S", "+"⟩, ⟨"S:1-2", "+"⟩]] ∧
    is_bb "S:" ⟨"S", "+"⟩ ≠ is_bb "S:" ⟨"S:1-2", "+"⟩ ∧
    pyGroupBy (prepareKeySpec "S:") [⟨"S", "+"⟩, ⟨"S:1-2", "+"⟩] =
      [[⟨"S", "+"⟩], [⟨"S:1-2", "+"⟩]] := by
  refine ⟨by decide, by decide, by decide⟩

/-! ## `certificate`: reuse of previously computed certificate lines -/

/-- Tab-joining, as `"\t".join(...)`. -/
def tabJoin (l : List String) : String := String.intercalate "\t" l

/-- A north/south neighbor in the tiling path: either a clone gap (with
its gap type) or another clone component. -/
inductive TPFNeighbor where
  | gap (gt : String)
  | clone (cid : String)
deriving DecidableEq

/-- Lookup in the previously loaded certificate data, keyed by
`(direction tag, current clone id, neighbor clone id)`. The data itself
comes from `check_certificate`, an external collaborator, and is taken
here as a parameter. -/
def lookupCert (data : List ((String × String × String) × String))
    (k : String × String × String) : Option String :=
  (data.find? (fun e => e.1 == k)).map (fun e => e.2)

/-- The per-direction body of the `certificate` loop. `ov` is the
external `overlap` computation (returning a certificate line or nothing)
and `phaseOf` the external `phase` lookup; both are parameters so that
their (non-)use is visible. `stale_bphase` models the Python variable
`bphase` left over from an earlier iteration, which the telomere branch
prints without assigning. -/
def certLine (ov : String → String → Option String)
    (phaseOf : String → Nat × Nat)
    (data : List ((String × String × String) × String))
    (tag obj aid : String) (aphase asize : Nat) (stale_bphase : String)
    (p : Option TPFNeighbor) : String :=
  match p with
  | none =>
      tabJoin [tag, obj, toString aphase, stale_bphase, aid, "telomere", toString asize]
  | some (TPFNeighbor.gap gt) =>
      tabJoin [tag, obj, toString aphase, "0", aid, gt, toString asize]
  | some (TPFNeighbor.clone bid) =>
      match lookupCert data (tag, aid, bid) with
      | some line => line
      | none =>
          let bphase := (phaseOf bid).1
          let ovline :=
            match ov aid bid with
            | some cl => cl
            | none => tabJoin [bid, toString asize, "None"]
          tabJoin [tag, obj, toString aphase, toString bphase, aid, ovline]

/-- Claim C7: when the key `(tag, thisId, otherId)` is already present
in the loaded certificate data, the stored line is emitted verbatim, and
the result does not depend on the overlap computation or the phase
lookup at all — no new overlap is computed for that pair. -/
theorem certificate_reuse (data : List ((String × String × String) × String))
    (tag obj aid bid : String) (aphase asize : Nat) (sb line : String)
    (h : lookupCert data (tag, aid, bid) = some line) :
    ∀ (ov ov' : String → String → Option String) (phaseOf phaseOf' : String → Nat × Nat),
      certLine ov phaseOf data tag obj aid aphase asize sb
          (some (TPFNeighbor.clone bid)) = line ∧
      certLine ov phaseOf data tag obj aid aphase asize sb
          (some (TPFNeighbor.clone bid)) =
        certLine ov' phaseOf' data tag obj aid aphase asize sb
          (some (TPFNeighbor.clone bid)) := by
  intro ov ov' phaseOf phaseOf'
  constructor
  · simp only [certLine, h]
  · simp only [certLine, h]

/-- Witness for C7: a one-entry certificate store; two wildly different
overlap/phase oracles both yield the cached line. -/
theorem certificate_reuse_witness :
    certLine (fun a b => some (a ++ b)) (fun _ => (1, 7))
        [(("North", "A", "B"), "CACHED")] "North" "chr1" "A" 2 100 "x"
        (some (TPFNeighbor.clone "B")) = "CACHED" ∧
    certLine (fun a b => some (a ++ b)) (fun _ => (1, 7))
        [(("North", "A", "B"), "CACHED")] "North" "chr1" "A" 2 100 "x"
        (some (TPFNeighbor.clone "B")) =
      certLine (fun _ _ => none) (fun _ => (2, 9))
        [(("North", "A", "B"), "CACHED")] "North" "chr1" "A" 2 100 "x"
        (some (TPFNeighbor.clone "B")) :=
  certificate_reuse [(("North", "A", "B"), "CACHED")] "North" "chr1" "A" "B" 2 100 "x" "CACHED"
    (by decide) (fun a b => some (a ++ b)) (fun _ _ => none) (fun _ => (1, 7)) (fun _ => (2, 9))
